import Mathlib

/-!
Verification of the LogMiner-QA flaky-test analysis engine
(`src/logminer_qa/flaky_test_analyzer.py`) against its specification.

The Python module is shallowly embedded below.  Python floats are modelled
by the rationals `ℚ` (the algorithm only divides small integer counts, so
the exact-arithmetic model captures the intended real-number semantics);
Python string methods `strip`/`lower` are modelled over their ASCII core;
code that can raise an exception is modelled in the `Option` monad, `none`
standing for a raised exception that escapes the function.
-/

namespace LogMinerQA

/-- ASCII whitespace, the core of Python's `str.strip` / regex `\s` class. -/
def isPySpace (c : Char) : Bool :=
  c = ' ' ∨ c = '\t' ∨ c = '\n' ∨ c = '\x0d' ∨ c = '\x0b' ∨ c = '\x0c'

/-- Python `str.strip()` (ASCII whitespace core). -/
def pyStrip (s : String) : String :=
  String.mk (((s.toList.dropWhile isPySpace).reverse.dropWhile isPySpace).reverse)

/-- Python `str.lower()` (ASCII core). -/
def pyLower (s : String) : String :=
  String.mk (s.toList.map Char.toLower)

/-- Python's string `or` idiom `a or b`: `b` when `a` is the empty string. -/
def strOr (a b : String) : String :=
  if a = "" then b else a

/-- Python `s[:n]` on strings. -/
def pyTake (s : String) (n : Nat) : String :=
  String.mk (s.toList.take n)

/-- Value of a list of decimal digit characters. -/
def digitsVal (l : List Char) : Nat :=
  l.foldl (fun n c => 10 * n + (c.toNat - 48)) 0

/-- Split a character list at the first occurrence of a separator
satisfying `p`: returns the part before and (when found) the part after. -/
def splitFirst (p : Char → Bool) : List Char → List Char × Option (List Char)
  | [] => ([], none)
  | c :: rest =>
    if p c then ([], some rest)
    else
      let r := splitFirst p rest
      (c :: r.1, r.2)

/-- Mantissa of a Python float literal: digits with at most one decimal
point, at least one digit overall (`"5"`, `"5."`, `".5"`, `"0.32"`). -/
def parseMantissa (l : List Char) : Option ℚ :=
  let s := splitFirst (fun c => c = '.') l
  match s.2 with
  | none =>
    if l ≠ [] ∧ l.all Char.isDigit then some ((digitsVal l : ℚ)) else none
  | some frac =>
    let intPart := s.1
    if (intPart ≠ [] ∨ frac ≠ []) ∧ intPart.all Char.isDigit ∧ frac.all Char.isDigit then
      some ((digitsVal intPart : ℚ) + (digitsVal frac : ℚ) / (10 : ℚ) ^ frac.length)
    else none

/-- Unsigned Python float literal: mantissa with optional exponent part. -/
def parseUnsignedFloat (l : List Char) : Option ℚ :=
  let s := splitFirst (fun c => c = 'e' ∨ c = 'E') l
  match s.2 with
  | none => parseMantissa l
  | some expPart =>
    match parseMantissa s.1 with
    | none => none
    | some m =>
      match expPart with
      | '+' :: d => if d ≠ [] ∧ d.all Char.isDigit then some (m * (10 : ℚ) ^ digitsVal d) else none
      | '-' :: d => if d ≠ [] ∧ d.all Char.isDigit then some (m / (10 : ℚ) ^ digitsVal d) else none
      | d => if d ≠ [] ∧ d.all Char.isDigit then some (m * (10 : ℚ) ^ digitsVal d) else none

/-- Model of Python `float(str)` on the decimal-literal core of its grammar
(optional surrounding whitespace, optional sign, digits with optional
decimal point and exponent).  `none` models a raised `ValueError`. -/
def pyFloat (s : String) : Option ℚ :=
  match (pyStrip s).toList with
  | '+' :: r => parseUnsignedFloat r
  | '-' :: r => (parseUnsignedFloat r).map Neg.neg
  | r => parseUnsignedFloat r

/-- `TestExecution`: a single execution record for one test in one run. -/
structure TestExecution where
  test_name : String
  status : String
  run_id : String := ""
  duration_seconds : ℚ := 0
  error_message : String := ""
  timestamp : String := ""
deriving DecidableEq, Repr

/-- `FlakyTestResult`: analysis result for a single test across runs. -/
structure FlakyTestResult where
  test_name : String
  total_runs : Nat
  pass_count : Nat
  fail_count : Nat
  error_count : Nat
  skip_count : Nat
  flakiness_score : ℚ
  classification : String
  fail_run_ids : List String := []
  pass_run_ids : List String := []
  error_messages : List String := []
deriving DecidableEq, Repr

/-- Metadata block attached by `analyze` (the Python dict literal built at
the end of `FlakyTestAnalyzer.analyze`). -/
structure AnalysisMetadata where
  total_executions : Nat
  unique_runs : Nat
  flakiness_threshold : ℚ
  min_runs_required : ℤ
  true_failure_threshold : ℚ
deriving DecidableEq, Repr

/-- `FlakyTestSummary`: aggregated summary of the analysis.  The metadata
field is `none` when the Python code leaves the default empty dict. -/
structure FlakyTestSummary where
  total_tests_analyzed : Nat
  flaky_tests : List FlakyTestResult
  true_failures : List FlakyTestResult
  stable_tests : Nat
  always_skipped : Nat
  overall_flakiness_rate : ℚ
  metadata : Option AnalysisMetadata := none
deriving DecidableEq, Repr

/-- `FlakyTestConfig` with the source's defaults. -/
structure FlakyTestConfig where
  flakiness_threshold : ℚ := 0
  min_runs_required : ℤ := 2
  true_failure_threshold : ℚ := 1
deriving DecidableEq, Repr

/-- `_normalize_status`: map arbitrary status vocabulary to one of the four
canonical statuses; unrecognized values map to `"failed"`. -/
def normalizeStatus (raw : String) : String :=
  let r := pyLower (pyStrip raw)
  if r = "pass" ∨ r = "passed" ∨ r = "ok" ∨ r = "success" then "passed"
  else if r = "fail" ∨ r = "failed" ∨ r = "failure" then "failed"
  else if r = "error" ∨ r = "errored" then "error"
  else if r = "skip" ∨ r = "skipped" ∨ r = "ignored" ∨ r = "pending" then "skipped"
  else "failed"

/-- An XML element: tag, attributes, text content, child elements. -/
inductive XmlElem where
  | mk (tag : String) (attrs : List (String × String)) (text : Option String)
      (children : List XmlElem)

def XmlElem.tag : XmlElem → String
  | .mk t _ _ _ => t

def XmlElem.attrs : XmlElem → List (String × String)
  | .mk _ a _ _ => a

def XmlElem.textContent : XmlElem → Option String
  | .mk _ _ x _ => x

def XmlElem.children : XmlElem → List XmlElem
  | .mk _ _ _ c => c

/-- `elem.get(key)`: attribute lookup (attribute keys are unique). -/
def getAttr (e : XmlElem) (k : String) : Option String :=
  (e.attrs.find? (fun p => p.1 = k)).map (·.2)

/-- `elem.find(tag)`: first direct child with the given tag. -/
def findChild (e : XmlElem) (tag : String) : Option XmlElem :=
  e.children.find? (fun c => c.tag = tag)

/-- `elem.findall(tag)`: all direct children with the given tag, in order. -/
def childrenWithTag (e : XmlElem) (tag : String) : List XmlElem :=
  e.children.filter (fun c => c.tag = tag)

mutual

/-- All proper descendants of an element in document (pre-)order, as
enumerated by `elem.findall(".//tag")` before tag filtering. -/
def XmlElem.descendants : XmlElem → List XmlElem
  | .mk _ _ _ children => descendantsList children

def descendantsList : List XmlElem → List XmlElem
  | [] => []
  | c :: rest => c :: (XmlElem.descendants c ++ descendantsList rest)

end

/-- A JUnit XML file as seen by `ET.parse`: the read can raise `OSError`
(uncaught in `parse_junit_xml`), fail with `ET.ParseError` (caught), or
produce a document root. -/
inductive XmlFile where
  | unreadable
  | malformed
  | doc (root : XmlElem)

/-- Sequence a fallible computation over a list, failing on the first
failure (Python: a loop that appends and lets exceptions propagate). -/
def traverseOpt {α β : Type} (f : α → Option β) : List α → Option (List β)
  | [] => some []
  | a :: l =>
    match f a with
    | none => none
    | some b =>
      match traverseOpt f l with
      | none => none
      | some bs => some (b :: bs)

/-- Body of the testcase loop in `parse_junit_xml`.  `none` models the
uncaught `ValueError` raised by `float(...)` on a non-numeric `time`. -/
def parseTestcase (runId stem : String) (tc : XmlElem) : Option TestExecution :=
  let name := (getAttr tc "name").getD "unknown"
  let classname := (getAttr tc "classname").getD ""
  let full_name := if classname ≠ "" then classname ++ "::" ++ name else name
  match pyFloat (strOr ((getAttr tc "time").getD "0") "0") with
  | none => none
  | some duration =>
    let statusMsg : String × String :=
      match findChild tc "failure" with
      | some f => ("failed", (getAttr f "message").getD ((f.textContent).getD ""))
      | none =>
        match findChild tc "error" with
        | some er => ("error", (getAttr er "message").getD ((er.textContent).getD ""))
        | none =>
          match findChild tc "skipped" with
          | some sk => ("skipped", (getAttr sk "message").getD "")
          | none => ("passed", "")
    some { test_name := full_name, status := statusMsg.1, run_id := strOr runId stem,
           duration_seconds := duration, error_message := pyTake statusMsg.2 500 }

/-- `parse_junit_xml`: parse a JUnit XML report into execution records. -/
def parse_junit_xml (file : XmlFile) (runId stem : String) : Option (List TestExecution) :=
  match file with
  | .unreadable => none
  | .malformed => some []
  | .doc root =>
    let suites0 :=
      if root.tag = "testsuites" then
        root.descendants.filter (fun s => s.tag = "testsuite")
      else [root]
    let suites := if root.tag = "testsuite" then [root] else suites0
    (traverseOpt
      (fun suite => traverseOpt (parseTestcase runId stem) (childrenWithTag suite "testcase"))
      suites).map List.flatten

/-- A JSON value. -/
inductive Json where
  | null
  | bool (b : Bool)
  | num (q : ℚ)
  | str (s : String)
  | arr (l : List Json)
  | obj (kvs : List (String × Json))

/-- A JSON result file as seen by `json.load` over a file opened with
`encoding="utf-8"`: non-UTF-8 bytes make `fh.read()` raise
`UnicodeDecodeError` — a `ValueError` that the `except
(json.JSONDecodeError, OSError)` clause does NOT catch; bad JSON syntax
raises `JSONDecodeError` and a failed read raises `OSError` (both
caught); otherwise a value is produced. -/
inductive JsonFile where
  | undecodable
  | malformed
  | data (j : Json)

/-- `dict.get(key)` on a JSON object (keys are unique). -/
def objGet (j : Json) (k : String) : Option Json :=
  match j with
  | .obj kvs => (kvs.find? (fun p => p.1 = k)).map (·.2)
  | _ => none

/-- Python truthiness of a JSON value. -/
def jsonTruthy : Json → Bool
  | .null => false
  | .bool b => b
  | .num q => q ≠ 0
  | .str s => s ≠ ""
  | .arr l => !l.isEmpty
  | .obj kvs => !kvs.isEmpty

/-- Python `str()` on a JSON value.  The numeric and container renderings
are abstracted (no claim depends on them); strings are returned as-is,
which is the only case exercised by the specification. -/
def pyStr : Json → String
  | .null => "None"
  | .bool true => "True"
  | .bool false => "False"
  | .num q => toString q
  | .str s => s
  | .arr _ => "<list>"
  | .obj _ => "<dict>"

/-- Python `float()` on a JSON value: numbers and numeric strings convert,
booleans convert to 0/1, anything else raises (`none`). -/
def pyFloatOfJson : Json → Option ℚ
  | .num q => some q
  | .str s => pyFloat s
  | .bool b => some (if b then 1 else 0)
  | _ => none

/-- Body of the record loop in `parse_json_results`, for a dict record.
`none` models the uncaught `ValueError`/`TypeError` from `float(...)`. -/
def jsonRecord (runId stem : String) (r : Json) : Option TestExecution :=
  let nA := (objGet r "name").getD .null
  let nB := (objGet r "test_name").getD .null
  let nC := (objGet r "testName").getD (.str "unknown")
  let nameJ := if jsonTruthy nA then nA else if jsonTruthy nB then nB else nC
  let sA := (objGet r "status").getD .null
  let sB := (objGet r "result").getD (.str "unknown")
  let rawStatus := pyLower (pyStr (if jsonTruthy sA then sA else sB))
  let dA := (objGet r "duration").getD (.num 0)
  match pyFloatOfJson (if jsonTruthy dA then dA else .num 0) with
  | none => none
  | some duration =>
    let mA := (objGet r "message").getD .null
    let mB := (objGet r "error_message").getD (.str "")
    some { test_name := pyStr nameJ, status := normalizeStatus rawStatus,
           run_id := strOr runId stem, duration_seconds := duration,
           error_message := pyTake (pyStr (if jsonTruthy mA then mA else mB)) 500,
           timestamp := pyStr ((objGet r "timestamp").getD (.str "")) }

/-- The record loop of `parse_json_results`: non-dict entries are skipped. -/
def processJsonRecords (runId stem : String) : List Json → Option (List TestExecution)
  | [] => some []
  | r :: rest =>
    match r with
    | .obj kvs =>
      match jsonRecord runId stem (.obj kvs) with
      | none => none
      | some ex =>
        match processJsonRecords runId stem rest with
        | none => none
        | some exs => some (ex :: exs)
    | _ => processJsonRecords runId stem rest

/-- `parse_json_results`: parse a JSON test result file.  A JSON value that
is neither a list nor a dict makes `data.get(...)` raise an uncaught
`AttributeError` (`none`). -/
def parse_json_results (file : JsonFile) (runId stem : String) : Option (List TestExecution) :=
  match file with
  | .undecodable => none
  | .malformed => some []
  | .data d =>
    match d with
    | .arr records => processJsonRecords runId stem records
    | .obj kvs =>
      let records := (objGet (.obj kvs) "test_results").getD
        ((objGet (.obj kvs) "tests").getD (.arr []))
      match records with
      | .arr l => processJsonRecords runId stem l
      | _ => some []
    | _ => none

/-- The status alternatives of `_TEXT_RESULT_RE`, in the regex engine's
backtracking order (each optional suffix tried greedily first). -/
def statusCandidates : List (List Char) :=
  [['p','a','s','s','e','d'], ['p','a','s','s'],
   ['f','a','i','l','e','d'], ['f','a','i','l'],
   ['e','r','r','o','r'],
   ['s','k','i','p','p','e','d'], ['s','k','i','p']]

/-- Strip a case-insensitive candidate prefix, returning the rest. -/
def stripCaseless : List Char → List Char → Option (List Char)
  | [], l => some l
  | _ :: _, [] => none
  | p :: ps, c :: cs => if c.toLower = p then stripCaseless ps cs else none

/-- Try one status alternative at the current position, then `\s+` and
`\S+` (both greedy; with nothing after them, greedy = maximal).  Returns
the matched status text, the matched name, and the remaining input. -/
def tryCand (cand : List Char) (l : List Char) : Option (String × String × List Char) :=
  match stripCaseless cand l with
  | none => none
  | some rest =>
    let ws := rest.takeWhile isPySpace
    if ws = [] then none
    else
      let rest2 := rest.drop ws.length
      let name := rest2.takeWhile (fun c => ¬ isPySpace c)
      if name = [] then none
      else some (String.mk (l.take cand.length), String.mk name, rest2.drop name.length)

/-- Try the alternatives in order at the current position. -/
def tryAlternatives : List (List Char) → List Char → Option (String × String × List Char)
  | [], _ => none
  | cand :: cs, l =>
    match tryCand cand l with
    | some r => some r
    | none => tryAlternatives cs l

/-- One match attempt of `_TEXT_RESULT_RE` at the current position. -/
def tryMatch (l : List Char) : Option (String × String × List Char) :=
  tryAlternatives statusCandidates l

/-- `finditer` over the input: scan left to right, emitting non-overlapping
matches and resuming after each match.  The fuel argument (instantiated
with the input length, which bounds the number of steps since every step
consumes at least one character) makes the recursion structural. -/
def scanAux : Nat → List Char → List (String × String)
  | 0, _ => []
  | _ + 1, [] => []
  | fuel + 1, c :: rest =>
    match tryMatch (c :: rest) with
    | some (st, nm, rest2) => (st, nm) :: scanAux fuel rest2
    | none => scanAux fuel rest

/-- All matches of `_TEXT_RESULT_RE` in a string. -/
def scanText (s : String) : List (String × String) :=
  scanAux s.toList.length s.toList

/-- A plain-text log file: reading can raise `OSError` (caught), undecodable
bytes are replaced rather than failing. -/
inductive TextFile where
  | unreadable
  | content (s : String)

/-- `parse_text_log`: extract test results from plain-text CI log output. -/
def parse_text_log (file : TextFile) (runId stem : String) : List TestExecution :=
  match file with
  | .unreadable => []
  | .content s =>
    (scanText s).map fun m =>
      { test_name := m.2, status := normalizeStatus (pyLower m.1),
        run_id := strOr runId stem }

/-- Index of the last `'.'` in a filename, if any. -/
def lastDotIdx (l : List Char) : Option Nat :=
  ((List.range l.length).filter (fun i => l.get? i = some '.')).getLast?

/-- `pathlib.PurePath.suffix`: the extension `name[i:]` where `i` is the
last dot, provided `0 < i < len(name) - 1`; otherwise empty. -/
def pathSuffix (n : String) : String :=
  let l := n.toList
  match lastDotIdx l with
  | some i => if 0 < i ∧ i < l.length - 1 then String.mk (l.drop i) else ""
  | none => ""

/-- `pathlib.PurePath.stem`: the filename without its `pathSuffix`. -/
def pathStem (n : String) : String :=
  let l := n.toList
  match lastDotIdx l with
  | some i => if 0 < i ∧ i < l.length - 1 then String.mk (l.take i) else n
  | none => n

/-- The parse outcomes a single file's raw bytes determine: attempting to
read it as XML, as JSON, or as text.  A file on disk fixes all three views
(e.g. a JSON-syntax file read as XML is `.malformed`); the loader picks
one view by file extension. -/
structure FileContent where
  xml : XmlFile := .malformed
  json : JsonFile := .malformed
  text : TextFile := .content ""

/-- `_auto_detect_and_parse`: dispatch on the lower-cased file extension. -/
def autoDetectAndParse (f : FileContent) (fname : String) (runId : String) :
    Option (List TestExecution) :=
  let sfx := pyLower (pathSuffix fname)
  if sfx = ".xml" then parse_junit_xml f.xml runId (pathStem fname)
  else if sfx = ".json" then parse_json_results f.json runId (pathStem fname)
  else some (parse_text_log f.text runId (pathStem fname))

/-- A regular file inside the results directory. -/
structure DirFile where
  name : String
  content : FileContent

/-- An immediate subdirectory of the results directory, with the regular
files directly inside it. -/
structure SubDir where
  name : String
  files : List DirFile

/-- The results root: either missing (`is_dir()` false) or a directory
with its immediate subdirectories and its immediate regular files. -/
inductive FsDir where
  | missing
  | dir (subdirs : List SubDir) (files : List DirFile)

/-- Stable insertion sort: `a` is placed before `b` exactly when
`before a b`; for a total preorder test this reproduces Python's stable
`sorted`. -/
def sInsert {α : Type} (before : α → α → Bool) (a : α) : List α → List α
  | [] => [a]
  | b :: l => if before a b then a :: b :: l else b :: sInsert before a l

def stableSortBy {α : Type} (before : α → α → Bool) : List α → List α
  | [] => []
  | a :: l => sInsert before a (stableSortBy before l)

/-- Accepted result-file extension test (`suffix.lower() in (...)`). -/
def goodExt (fname : String) : Bool :=
  [".xml", ".json", ".log", ".txt"].contains (pyLower (pathSuffix fname))

/-- Lexicographic order on code points, Python's `<=` on strings (and the
order `sorted` uses on the path names enumerated by the loader). -/
def charListLe : List Char → List Char → Bool
  | [], _ => true
  | _ :: _, [] => false
  | a :: as, b :: bs => if a = b then charListLe as bs else decide (a < b)

def nameLe (a b : String) : Bool :=
  charListLe a.toList b.toList

/-- `FlakyTestAnalyzer.load_results_from_directory`. -/
def load_results_from_directory (d : FsDir) : Option (List TestExecution) :=
  match d with
  | .missing => some []
  | .dir subdirs files =>
    if subdirs.isEmpty then
      ((traverseOpt (fun f => autoDetectAndParse f.content f.name "")
        ((stableSortBy (fun a b => nameLe a.name b.name) files).filter
          (fun f => goodExt f.name))).map List.flatten)
    else
      ((traverseOpt (fun sd =>
          ((traverseOpt (fun f => autoDetectAndParse f.content f.name sd.name)
            ((stableSortBy (fun a b => nameLe a.name b.name) sd.files).filter
              (fun f => goodExt f.name))).map List.flatten))
        (stableSortBy (fun a b => nameLe a.name b.name) subdirs)).map List.flatten)

/-- Count of executions with the given status. -/
def countStatus (execs : List TestExecution) (s : String) : Nat :=
  (execs.filter (fun e => e.status = s)).length

def passCount (execs : List TestExecution) : Nat := countStatus execs "passed"

def failCount (execs : List TestExecution) : Nat := countStatus execs "failed"

def errorCount (execs : List TestExecution) : Nat := countStatus execs "error"

def skipCount (execs : List TestExecution) : Nat := countStatus execs "skipped"

/-- `effective_runs`: runs that were not skipped. -/
def effectiveRuns (execs : List TestExecution) : Nat :=
  passCount execs + failCount execs + errorCount execs

def combinedFails (execs : List TestExecution) : Nat :=
  failCount execs + errorCount execs

/-- First-occurrence deduplication, modelling the construction of a Python
set from a list (the set's iteration order is unspecified; this model
fixes first-occurrence order, which no claim depends on).  The fuel is
instantiated with the list length, which bounds the recursion depth. -/
def uniqFirstAux {α : Type} [DecidableEq α] : Nat → List α → List α
  | 0, _ => []
  | _ + 1, [] => []
  | fuel + 1, a :: l => a :: uniqFirstAux fuel (l.filter (fun b => b ≠ a))

def uniqFirst {α : Type} [DecidableEq α] (l : List α) : List α :=
  uniqFirstAux l.length l

/-- `FlakyTestAnalyzer._classify_test`. -/
def classifyTest (cfg : FlakyTestConfig) (test_name : String)
    (execs : List TestExecution) : FlakyTestResult :=
  let pass_count := passCount execs
  let fail_count := failCount execs
  let error_count := errorCount execs
  let skip_count := skipCount execs
  let total_runs := execs.length
  let fail_run_ids := uniqFirst ((execs.filter
    (fun e => (e.status = "failed" ∨ e.status = "error") ∧ e.run_id ≠ "")).map (·.run_id))
  let pass_run_ids := uniqFirst ((execs.filter
    (fun e => e.status = "passed" ∧ e.run_id ≠ "")).map (·.run_id))
  let error_messages := uniqFirst ((execs.filter
    (fun e => e.error_message ≠ "")).map (·.error_message))
  let effective_runs := effectiveRuns execs
  let combined_fails := combinedFails execs
  let scoreClass : ℚ × String :=
    if effective_runs = 0 then
      (0, "always_skipped")
    else if (effective_runs : ℤ) < cfg.min_runs_required then
      let fail_rate : ℚ := (combined_fails : ℚ) / (effective_runs : ℚ)
      let pass_rate : ℚ := (pass_count : ℚ) / (effective_runs : ℚ)
      (2 * min pass_rate fail_rate,
        if combined_fails = effective_runs then "true_failure"
        else if combined_fails = 0 then "stable"
        else "flaky")
    else
      let fail_rate : ℚ := (combined_fails : ℚ) / (effective_runs : ℚ)
      let pass_rate : ℚ := (pass_count : ℚ) / (effective_runs : ℚ)
      let flakiness_score := 2 * min pass_rate fail_rate
      (flakiness_score,
        if cfg.true_failure_threshold ≤ fail_rate then "true_failure"
        else if cfg.flakiness_threshold < flakiness_score ∧
            0 < combined_fails ∧ 0 < pass_count then "flaky"
        else "stable")
  { test_name := test_name, total_runs := total_runs, pass_count := pass_count,
    fail_count := fail_count, error_count := error_count, skip_count := skip_count,
    flakiness_score := scoreClass.1, classification := scoreClass.2,
    fail_run_ids := fail_run_ids, pass_run_ids := pass_run_ids,
    error_messages := error_messages }

/-- Descending-by-`flakiness_score` comparison used to sort flaky results
(`sorted(..., key=lambda r: r.flakiness_score, reverse=True)`). -/
def scoreBefore (a b : FlakyTestResult) : Bool :=
  decide (b.flakiness_score ≤ a.flakiness_score)

/-- `FlakyTestAnalyzer.analyze`. -/
def analyze (cfg : FlakyTestConfig) (executions : List TestExecution) : FlakyTestSummary :=
  if executions.isEmpty then
    { total_tests_analyzed := 0, flaky_tests := [], true_failures := [],
      stable_tests := 0, always_skipped := 0, overall_flakiness_rate := 0,
      metadata := none }
  else
    let names := uniqFirst (executions.map (·.test_name))
    let results := names.map
      (fun n => classifyTest cfg n (executions.filter (fun e => e.test_name = n)))
    let flaky := stableSortBy scoreBefore
      (results.filter (fun r => r.classification = "flaky"))
    let true_failures := results.filter (fun r => r.classification = "true_failure")
    let stable := (results.filter (fun r => r.classification = "stable")).length
    let always_skipped := (results.filter (fun r => r.classification = "always_skipped")).length
    let total := results.length
    let flakiness_rate : ℚ := if 0 < total then (flaky.length : ℚ) / (total : ℚ) else 0
    let run_ids := uniqFirst ((executions.filter (fun e => e.run_id ≠ "")).map (·.run_id))
    { total_tests_analyzed := total, flaky_tests := flaky, true_failures := true_failures,
      stable_tests := stable, always_skipped := always_skipped,
      overall_flakiness_rate := flakiness_rate,
      metadata := some { total_executions := executions.length,
                         unique_runs := run_ids.length,
                         flakiness_threshold := cfg.flakiness_threshold,
                         min_runs_required := cfg.min_runs_required,
                         true_failure_threshold := cfg.true_failure_threshold } }

/-! ### Helper lemmas -/

theorem countStatus_cons (e : TestExecution) (t : List TestExecution) (s : String) :
    countStatus (e :: t) s = (if e.status = s then 1 else 0) + countStatus t s := by
  simp only [countStatus, List.filter_cons]
  by_cases h : e.status = s <;> simp [h, Nat.add_comm]

theorem count_partition (l : List TestExecution)
    (h : ∀ e ∈ l, e.status = "passed" ∨ e.status = "failed" ∨ e.status = "error" ∨
      e.status = "skipped") :
    passCount l + failCount l + errorCount l + skipCount l = l.length := by
  induction l with
  | nil => rfl
  | cons e t ih =>
    have he := h e (List.mem_cons_self e t)
    have iht := ih (fun x hx => h x (List.mem_cons_of_mem e hx))
    simp only [passCount, failCount, errorCount, skipCount] at *
    rw [countStatus_cons, countStatus_cons, countStatus_cons, countStatus_cons,
      List.length_cons]
    rcases he with h1 | h1 | h1 | h1 <;> simp [h1] <;> omega

theorem score_bounds (p c e : Nat) (he : p + c = e) (h : 0 < e) :
    0 ≤ 2 * min ((p : ℚ) / (e : ℚ)) ((c : ℚ) / (e : ℚ)) ∧
      2 * min ((p : ℚ) / (e : ℚ)) ((c : ℚ) / (e : ℚ)) ≤ 1 := by
  have he' : (p : ℚ) + (c : ℚ) = (e : ℚ) := by exact_mod_cast he
  have hepos : (0 : ℚ) < (e : ℚ) := by exact_mod_cast h
  constructor
  · have h1 : (0 : ℚ) ≤ (p : ℚ) / (e : ℚ) := div_nonneg (Nat.cast_nonneg p) (le_of_lt hepos)
    have h2 : (0 : ℚ) ≤ (c : ℚ) / (e : ℚ) := div_nonneg (Nat.cast_nonneg c) (le_of_lt hepos)
    have := le_min h1 h2
    linarith
  · have h1 : min ((p : ℚ) / (e : ℚ)) ((c : ℚ) / (e : ℚ)) ≤ (p : ℚ) / (e : ℚ) :=
      min_le_left _ _
    have h2 : min ((p : ℚ) / (e : ℚ)) ((c : ℚ) / (e : ℚ)) ≤ (c : ℚ) / (e : ℚ) :=
      min_le_right _ _
    have hsum : (p : ℚ) / (e : ℚ) + (c : ℚ) / (e : ℚ) = 1 := by
      rw [div_add_div_same, he']
      exact div_self (ne_of_gt hepos)
    linarith

theorem effectiveRuns_split (execs : List TestExecution) :
    passCount execs + combinedFails execs = effectiveRuns execs := by
  simp [effectiveRuns, combinedFails, Nat.add_assoc]

theorem classifyTest_skip_branch (cfg : FlakyTestConfig) (name : String)
    (execs : List TestExecution) (h : effectiveRuns execs = 0) :
    (classifyTest cfg name execs).flakiness_score = 0 ∧
      (classifyTest cfg name execs).classification = "always_skipped" := by
  simp [classifyTest, h]

theorem classifyTest_low_branch (cfg : FlakyTestConfig) (name : String)
    (execs : List TestExecution) (h0 : effectiveRuns execs ≠ 0)
    (h1 : (effectiveRuns execs : ℤ) < cfg.min_runs_required) :
    (classifyTest cfg name execs).flakiness_score =
      2 * min ((passCount execs : ℚ) / (effectiveRuns execs : ℚ))
        ((combinedFails execs : ℚ) / (effectiveRuns execs : ℚ)) ∧
    (classifyTest cfg name execs).classification =
      (if combinedFails execs = effectiveRuns execs then "true_failure"
       else if combinedFails execs = 0 then "stable" else "flaky") := by
  simp [classifyTest, h0, h1]

theorem classifyTest_high_branch (cfg : FlakyTestConfig) (name : String)
    (execs : List TestExecution) (h0 : effectiveRuns execs ≠ 0)
    (h1 : ¬ ((effectiveRuns execs : ℤ) < cfg.min_runs_required)) :
    (classifyTest cfg name execs).flakiness_score =
      2 * min ((passCount execs : ℚ) / (effectiveRuns execs : ℚ))
        ((combinedFails execs : ℚ) / (effectiveRuns execs : ℚ)) ∧
    (classifyTest cfg name execs).classification =
      (if cfg.true_failure_threshold ≤
          (combinedFails execs : ℚ) / (effectiveRuns execs : ℚ) then "true_failure"
       else if cfg.flakiness_threshold <
            2 * min ((passCount execs : ℚ) / (effectiveRuns execs : ℚ))
              ((combinedFails execs : ℚ) / (effectiveRuns execs : ℚ)) ∧
            0 < combinedFails execs ∧ 0 < passCount execs then "flaky"
       else "stable") := by
  simp [classifyTest, h0, h1]

/-! ### Claim C6 -/

theorem normalizeStatus_mem (s : String) :
    normalizeStatus s = "passed" ∨ normalizeStatus s = "failed" ∨
      normalizeStatus s = "error" ∨ normalizeStatus s = "skipped" := by
  simp only [normalizeStatus]
  split_ifs <;> tauto

theorem normalizeStatus_idem (s : String) :
    normalizeStatus (normalizeStatus s) = normalizeStatus s := by
  rcases normalizeStatus_mem s with h | h | h | h <;> rw [h] <;> decide

/-- C6: the status normalizer is total (every string maps to one of the four
canonical statuses), maps each recognized synonym class as specified after
trimming and lower-casing, maps everything else (including the empty
string) to "failed", and is idempotent. -/
theorem c6_normalizer_total_idempotent (s : String) :
    (normalizeStatus s = "passed" ∨ normalizeStatus s = "failed" ∨
      normalizeStatus s = "error" ∨ normalizeStatus s = "skipped")
    ∧ (pyLower (pyStrip s) = "pass" ∨ pyLower (pyStrip s) = "passed" ∨
        pyLower (pyStrip s) = "ok" ∨ pyLower (pyStrip s) = "success" →
        normalizeStatus s = "passed")
    ∧ (pyLower (pyStrip s) = "fail" ∨ pyLower (pyStrip s) = "failed" ∨
        pyLower (pyStrip s) = "failure" → normalizeStatus s = "failed")
    ∧ (pyLower (pyStrip s) = "error" ∨ pyLower (pyStrip s) = "errored" →
        normalizeStatus s = "error")
    ∧ (pyLower (pyStrip s) = "skip" ∨ pyLower (pyStrip s) = "skipped" ∨
        pyLower (pyStrip s) = "ignored" ∨ pyLower (pyStrip s) = "pending" →
        normalizeStatus s = "skipped")
    ∧ (¬ (pyLower (pyStrip s) = "pass" ∨ pyLower (pyStrip s) = "passed" ∨
          pyLower (pyStrip s) = "ok" ∨ pyLower (pyStrip s) = "success" ∨
          pyLower (pyStrip s) = "fail" ∨ pyLower (pyStrip s) = "failed" ∨
          pyLower (pyStrip s) = "failure" ∨
          pyLower (pyStrip s) = "error" ∨ pyLower (pyStrip s) = "errored" ∨
          pyLower (pyStrip s) = "skip" ∨ pyLower (pyStrip s) = "skipped" ∨
          pyLower (pyStrip s) = "ignored" ∨ pyLower (pyStrip s) = "pending") →
        normalizeStatus s = "failed")
    ∧ normalizeStatus (normalizeStatus s) = normalizeStatus s := by
  refine ⟨normalizeStatus_mem s, fun hp => ?_, fun hf => ?_, fun he => ?_,
    fun hs => ?_, fun hu => ?_, normalizeStatus_idem s⟩
  · rcases hp with h | h | h | h <;> simp [normalizeStatus, h]
  · rcases hf with h | h | h <;> simp [normalizeStatus, h]
  · rcases he with h | h <;> simp [normalizeStatus, h]
  · rcases hs with h | h | h | h <;> simp [normalizeStatus, h]
  · push_neg at hu
    obtain ⟨u1, u2, u3, u4, u5, u6, u7, u8, u9, u10, u11, u12, u13⟩ := hu
    simp [normalizeStatus, u1, u2, u3, u4, u5, u6, u7, u8, u9, u10, u11, u12, u13]

/-- C6 witness: the mapping clauses fire on a concrete input. -/
theorem c6_witness : normalizeStatus " Pass " = "passed" :=
  (c6_normalizer_total_idempotent " Pass ").2.1 (by decide)

/-! ### Claim C1 -/

/-- C1: in the high-confidence branch (effective_runs positive and at least
min_runs_required) the flakiness score is 2 * min(pass_rate, fail_rate) and
the classification follows the threshold rule: true_failure when
fail_rate >= true_failure_threshold, else flaky when the score strictly
exceeds flakiness_threshold and both a pass and a fail/error are present,
else stable. -/
theorem c1_high_confidence_rule (cfg : FlakyTestConfig) (name : String)
    (execs : List TestExecution)
    (hpos : 0 < effectiveRuns execs)
    (hmin : cfg.min_runs_required ≤ (effectiveRuns execs : ℤ)) :
    (classifyTest cfg name execs).flakiness_score =
      2 * min ((passCount execs : ℚ) / (effectiveRuns execs : ℚ))
        ((combinedFails execs : ℚ) / (effectiveRuns execs : ℚ))
    ∧ (classifyTest cfg name execs).classification =
      (if cfg.true_failure_threshold ≤
          (combinedFails execs : ℚ) / (effectiveRuns execs : ℚ) then "true_failure"
       else if cfg.flakiness_threshold <
            2 * min ((passCount execs : ℚ) / (effectiveRuns execs : ℚ))
              ((combinedFails execs : ℚ) / (effectiveRuns execs : ℚ)) ∧
            0 < combinedFails execs ∧ 0 < passCount execs then "flaky"
       else "stable") :=
  classifyTest_high_branch cfg name execs (Nat.pos_iff_ne_zero.mp hpos)
    (not_lt.mpr hmin)

/-- Sample group for the C1 witness: two passes and one failure over three
distinct runs. -/
def c1ex : List TestExecution :=
  [{ test_name := "t1", status := "passed", run_id := "r1" },
   { test_name := "t1", status := "failed", run_id := "r2", error_message := "boom" },
   { test_name := "t1", status := "passed", run_id := "r3" }]

/-- C1 witness: the hypotheses hold at a concrete three-run group. -/
theorem c1_witness :
    0 < effectiveRuns c1ex ∧
    (({} : FlakyTestConfig).min_runs_required ≤ (effectiveRuns c1ex : ℤ)) ∧
    ((classifyTest {} "t1" c1ex).flakiness_score =
      2 * min ((passCount c1ex : ℚ) / (effectiveRuns c1ex : ℚ))
        ((combinedFails c1ex : ℚ) / (effectiveRuns c1ex : ℚ))
    ∧ (classifyTest {} "t1" c1ex).classification =
      (if ({} : FlakyTestConfig).true_failure_threshold ≤
          (combinedFails c1ex : ℚ) / (effectiveRuns c1ex : ℚ) then "true_failure"
       else if ({} : FlakyTestConfig).flakiness_threshold <
            2 * min ((passCount c1ex : ℚ) / (effectiveRuns c1ex : ℚ))
              ((combinedFails c1ex : ℚ) / (effectiveRuns c1ex : ℚ)) ∧
            0 < combinedFails c1ex ∧ 0 < passCount c1ex then "flaky"
       else "stable")) :=
  ⟨by decide, by decide, c1_high_confidence_rule {} "t1" c1ex (by decide) (by decide)⟩

/-! ### Claim C2 -/

/-- C2: a group with no effective runs is always_skipped with score 0; a
group with 0 < effective_runs < min_runs_required is classified
true_failure exactly when all effective runs failed or errored, stable
exactly when none did, flaky otherwise — and in that branch the two
threshold parameters are never consulted (any configuration agreeing on
min_runs_required yields the identical result). -/
theorem c2_low_confidence_rule (cfg cfg2 : FlakyTestConfig) (name : String)
    (execs : List TestExecution)
    (hmin : cfg2.min_runs_required = cfg.min_runs_required) :
    (effectiveRuns execs = 0 →
      (classifyTest cfg name execs).classification = "always_skipped" ∧
      (classifyTest cfg name execs).flakiness_score = 0)
    ∧ (0 < effectiveRuns execs → (effectiveRuns execs : ℤ) < cfg.min_runs_required →
      ((classifyTest cfg name execs).classification = "true_failure" ↔
        combinedFails execs = effectiveRuns execs)
      ∧ ((classifyTest cfg name execs).classification = "stable" ↔
        combinedFails execs = 0)
      ∧ ((classifyTest cfg name execs).classification = "flaky" ↔
        (combinedFails execs ≠ effectiveRuns execs ∧ combinedFails execs ≠ 0))
      ∧ classifyTest cfg2 name execs = classifyTest cfg name execs) := by
  constructor
  · intro h0
    exact ⟨(classifyTest_skip_branch cfg name execs h0).2,
      (classifyTest_skip_branch cfg name execs h0).1⟩
  · intro hpos hlt
    have h0 := Nat.pos_iff_ne_zero.mp hpos
    have hcls := (classifyTest_low_branch cfg name execs h0 hlt).2
    refine ⟨?_, ?_, ?_, ?_⟩
    · rw [hcls]
      by_cases h1 : combinedFails execs = effectiveRuns execs
      · simp [h1]
      · by_cases h2 : combinedFails execs = 0 <;> simp [h1, h2]
    · rw [hcls]
      by_cases h1 : combinedFails execs = effectiveRuns execs
      · simp [h1]
        omega
      · by_cases h2 : combinedFails execs = 0
        · have h3 : ¬ (0 = effectiveRuns execs) := by omega
          simp [h1, h2, h3]
        · simp [h1, h2]
    · rw [hcls]
      by_cases h1 : combinedFails execs = effectiveRuns execs
      · simp [h1]
      · by_cases h2 : combinedFails execs = 0
        · have h3 : ¬ (0 = effectiveRuns execs) := by omega
          simp [h1, h2, h3]
        · simp [h1, h2]
    · have hlt2 : (effectiveRuns execs : ℤ) < cfg2.min_runs_required := hmin ▸ hlt
      simp [classifyTest, h0, hlt, hlt2]

/-- Sample group for the C2 witness: a single skipped execution. -/
def c2exSkip : List TestExecution :=
  [{ test_name := "t2", status := "skipped", run_id := "r1" }]

/-- Sample group for the C2 witness: a single passing execution (one
effective run, below the default min_runs_required of 2). -/
def c2exOne : List TestExecution :=
  [{ test_name := "t2", status := "passed", run_id := "r1" }]

/-- An alternative configuration with the same min_runs_required but very
different thresholds, for the threshold-blindness part of C2. -/
def c2AltConfig : FlakyTestConfig :=
  { flakiness_threshold := 9/10, min_runs_required := 2, true_failure_threshold := 1/10 }

/-- C2 witness: all-skipped group is always_skipped; a single-pass group is
classified identically under wildly different thresholds. -/
theorem c2_witness :
    (classifyTest {} "t2" c2exSkip).classification = "always_skipped" ∧
    classifyTest c2AltConfig "t2" c2exOne = classifyTest {} "t2" c2exOne :=
  ⟨((c2_low_confidence_rule {} {} "t2" c2exSkip rfl).1 (by decide)).1,
   ((c2_low_confidence_rule {} c2AltConfig "t2" c2exOne rfl).2 (by decide)
      (by decide)).2.2.2⟩

/-! ### Claim C4 -/

/-- C4: for a group whose statuses are all canonical, the four per-status
counts sum to total_runs, and the flakiness score lies in [0, 1]. -/
theorem c4_result_invariants (cfg : FlakyTestConfig) (name : String)
    (execs : List TestExecution)
    (hcanon : ∀ e ∈ execs, e.status = "passed" ∨ e.status = "failed" ∨
      e.status = "error" ∨ e.status = "skipped") :
    (classifyTest cfg name execs).pass_count + (classifyTest cfg name execs).fail_count
      + (classifyTest cfg name execs).error_count
      + (classifyTest cfg name execs).skip_count
      = (classifyTest cfg name execs).total_runs
    ∧ 0 ≤ (classifyTest cfg name execs).flakiness_score
    ∧ (classifyTest cfg name execs).flakiness_score ≤ 1 := by
  have hcounts : (classifyTest cfg name execs).pass_count = passCount execs ∧
      (classifyTest cfg name execs).fail_count = failCount execs ∧
      (classifyTest cfg name execs).error_count = errorCount execs ∧
      (classifyTest cfg name execs).skip_count = skipCount execs ∧
      (classifyTest cfg name execs).total_runs = execs.length :=
    ⟨rfl, rfl, rfl, rfl, rfl⟩
  refine ⟨?_, ?_⟩
  · rw [hcounts.1, hcounts.2.1, hcounts.2.2.1, hcounts.2.2.2.1, hcounts.2.2.2.2]
    exact count_partition execs hcanon
  · by_cases h0 : effectiveRuns execs = 0
    · rw [(classifyTest_skip_branch cfg name execs h0).1]
      norm_num
    · have hbound := score_bounds (passCount execs) (combinedFails execs)
        (effectiveRuns execs) (effectiveRuns_split execs) (Nat.pos_of_ne_zero h0)
      by_cases h1 : (effectiveRuns execs : ℤ) < cfg.min_runs_required
      · rw [(classifyTest_low_branch cfg name execs h0 h1).1]
        exact hbound
      · rw [(classifyTest_high_branch cfg name execs h0 h1).1]
        exact hbound

/-- Sample group for the C4 witness: one execution of each canonical
status. -/
def c4ex : List TestExecution :=
  [{ test_name := "t4", status := "passed", run_id := "r1" },
   { test_name := "t4", status := "failed", run_id := "r2", error_message := "assert" },
   { test_name := "t4", status := "error", run_id := "r3", error_message := "crash" },
   { test_name := "t4", status := "skipped", run_id := "r4" }]

/-- C4 witness: the invariants hold at a concrete four-status group. -/
theorem c4_witness :
    (classifyTest {} "t4" c4ex).pass_count + (classifyTest {} "t4" c4ex).fail_count
      + (classifyTest {} "t4" c4ex).error_count + (classifyTest {} "t4" c4ex).skip_count
      = (classifyTest {} "t4" c4ex).total_runs
    ∧ 0 ≤ (classifyTest {} "t4" c4ex).flakiness_score
    ∧ (classifyTest {} "t4" c4ex).flakiness_score ≤ 1 :=
  c4_result_invariants {} "t4" c4ex (by decide)

/-! ### Claim C10 -/

theorem uniqFirstAux_mem {α : Type} [DecidableEq α] :
    ∀ (n : Nat) (l : List α), l.length ≤ n → ∀ x : α, (x ∈ uniqFirstAux n l ↔ x ∈ l) := by
  intro n
  induction n with
  | zero =>
    intro l hl x
    rw [Nat.le_zero, List.length_eq_zero] at hl
    subst hl
    simp [uniqFirstAux]
  | succ n ih =>
    intro l hl x
    cases l with
    | nil => simp [uniqFirstAux]
    | cons a t =>
      have hfl : (t.filter (fun b => b ≠ a)).length ≤ n :=
        le_trans (List.length_filter_le _ t) (by simpa using hl)
      simp only [uniqFirstAux, List.mem_cons, ih _ hfl, List.mem_filter]
      by_cases hx : x = a <;> simp [hx]

theorem uniqFirst_mem {α : Type} [DecidableEq α] (l : List α) (x : α) :
    x ∈ uniqFirst l ↔ x ∈ l :=
  uniqFirstAux_mem l.length l le_rfl x

theorem uniqFirstAux_nodup {α : Type} [DecidableEq α] :
    ∀ (n : Nat) (l : List α), l.length ≤ n → (uniqFirstAux n l).Nodup := by
  intro n
  induction n with
  | zero => intro l hl; simp [uniqFirstAux]
  | succ n ih =>
    intro l hl
    cases l with
    | nil => simp [uniqFirstAux]
    | cons a t =>
      have hfl : (t.filter (fun b => b ≠ a)).length ≤ n :=
        le_trans (List.length_filter_le _ t) (by simpa using hl)
      simp only [uniqFirstAux, List.nodup_cons]
      refine ⟨fun hmem => ?_, ih _ hfl⟩
      rw [uniqFirstAux_mem n _ hfl, List.mem_filter] at hmem
      simp at hmem

theorem uniqFirst_nodup {α : Type} [DecidableEq α] (l : List α) :
    (uniqFirst l).Nodup :=
  uniqFirstAux_nodup l.length l le_rfl

/-- C10: the reported error_messages of a group are exactly the distinct
non-empty error messages over all executions of the group, regardless of
the executions' statuses (messages from skipped or passed executions
included). -/
theorem c10_error_messages_all_statuses (cfg : FlakyTestConfig) (name : String)
    (execs : List TestExecution) :
    (classifyTest cfg name execs).error_messages.Nodup
    ∧ ∀ m : String, (m ∈ (classifyTest cfg name execs).error_messages ↔
        (m ≠ "" ∧ ∃ e ∈ execs, e.error_message = m)) := by
  have hfield : (classifyTest cfg name execs).error_messages =
      uniqFirst ((execs.filter (fun e => e.error_message ≠ "")).map (·.error_message)) := rfl
  rw [hfield]
  refine ⟨uniqFirst_nodup _, fun m => ?_⟩
  rw [uniqFirst_mem]
  simp only [List.mem_map, List.mem_filter, decide_eq_true_eq]
  constructor
  · rintro ⟨e, ⟨he, hne⟩, rfl⟩
    exact ⟨hne, e, he, rfl⟩
  · rintro ⟨hne, e, he, hm⟩
    exact ⟨e, ⟨he, hm ▸ hne⟩, hm⟩

/-! ### Claim C9 -/

theorem mem_sInsert {α : Type} (before : α → α → Bool) (a x : α) :
    ∀ l : List α, (x ∈ sInsert before a l ↔ x = a ∨ x ∈ l) := by
  intro l
  induction l with
  | nil => simp [sInsert]
  | cons b t ih =>
    simp only [sInsert]
    split_ifs with h
    · simp [List.mem_cons]
    · simp only [List.mem_cons, ih]
      tauto

theorem mem_stableSortBy {α : Type} (before : α → α → Bool) (x : α) :
    ∀ l : List α, (x ∈ stableSortBy before l ↔ x ∈ l) := by
  intro l
  induction l with
  | nil => simp [stableSortBy]
  | cons a t ih =>
    simp only [stableSortBy, mem_sInsert, ih, List.mem_cons]

theorem length_sInsert {α : Type} (before : α → α → Bool) (a : α) :
    ∀ l : List α, (sInsert before a l).length = l.length + 1 := by
  intro l
  induction l with
  | nil => rfl
  | cons b t ih =>
    simp only [sInsert]
    split_ifs with h
    · simp
    · simp [ih]

theorem length_stableSortBy {α : Type} (before : α → α → Bool) :
    ∀ l : List α, (stableSortBy before l).length = l.length := by
  intro l
  induction l with
  | nil => rfl
  | cons a t ih =>
    simp only [stableSortBy, length_sInsert, ih, List.length_cons]

theorem sInsert_sorted_score (a : FlakyTestResult) (l : List FlakyTestResult)
    (h : l.Sorted (fun x y => y.flakiness_score ≤ x.flakiness_score)) :
    (sInsert scoreBefore a l).Sorted (fun x y => y.flakiness_score ≤ x.flakiness_score) := by
  induction l with
  | nil => simp [sInsert]
  | cons b t ih =>
    rw [List.sorted_cons] at h
    simp only [sInsert]
    split_ifs with hb
    · have hba : b.flakiness_score ≤ a.flakiness_score := by
        simpa [scoreBefore] using hb
      rw [List.sorted_cons]
      refine ⟨fun c hc => ?_, by rw [List.sorted_cons]; exact h⟩
      rcases List.mem_cons.mp hc with rfl | hct
      · exact hba
      · exact le_trans (h.1 c hct) hba
    · have hab : a.flakiness_score ≤ b.flakiness_score := by
        simp only [scoreBefore, decide_eq_true_eq] at hb
        exact le_of_lt (lt_of_not_le hb)
      rw [List.sorted_cons]
      refine ⟨fun c hc => ?_, ih h.2⟩
      rcases (mem_sInsert scoreBefore a c t).mp hc with rfl | hct
      · exact hab
      · exact h.1 c hct

theorem stableSortBy_sorted_score (l : List FlakyTestResult) :
    (stableSortBy scoreBefore l).Sorted
      (fun x y => y.flakiness_score ≤ x.flakiness_score) := by
  induction l with
  | nil => simp [stableSortBy]
  | cons a t ih => exact sInsert_sorted_score a _ ih

theorem classifyTest_classification_mem (cfg : FlakyTestConfig) (name : String)
    (execs : List TestExecution) :
    (classifyTest cfg name execs).classification = "flaky" ∨
      (classifyTest cfg name execs).classification = "true_failure" ∨
      (classifyTest cfg name execs).classification = "stable" ∨
      (classifyTest cfg name execs).classification = "always_skipped" := by
  simp only [classifyTest]
  split_ifs <;> simp

theorem four_filter_partition (l : List FlakyTestResult)
    (h : ∀ r ∈ l, r.classification = "flaky" ∨ r.classification = "true_failure" ∨
      r.classification = "stable" ∨ r.classification = "always_skipped") :
    (l.filter (fun r => r.classification = "flaky")).length
      + (l.filter (fun r => r.classification = "true_failure")).length
      + (l.filter (fun r => r.classification = "stable")).length
      + (l.filter (fun r => r.classification = "always_skipped")).length
      = l.length := by
  induction l with
  | nil => rfl
  | cons r t ih =>
    have hr := h r (List.mem_cons_self r t)
    have iht := ih (fun x hx => h x (List.mem_cons_of_mem r hx))
    simp only [List.filter_cons, List.length_cons]
    rcases hr with h1 | h1 | h1 | h1 <;> simp [h1] <;> omega

/-- C9: in every produced Summary the flaky list is sorted by
flakiness_score descending, every listed result carries the matching
classification, and the four category sizes sum to
total_tests_analyzed (each analyzed test falls in exactly one category,
since each result's classification is a single one of the four values). -/
theorem c9_summary_partition_sorted (cfg : FlakyTestConfig)
    (execs : List TestExecution) :
    (analyze cfg execs).flaky_tests.Sorted
      (fun x y => y.flakiness_score ≤ x.flakiness_score)
    ∧ (analyze cfg execs).flaky_tests.length + (analyze cfg execs).true_failures.length
      + (analyze cfg execs).stable_tests + (analyze cfg execs).always_skipped
      = (analyze cfg execs).total_tests_analyzed
    ∧ (∀ r ∈ (analyze cfg execs).flaky_tests, r.classification = "flaky")
    ∧ (∀ r ∈ (analyze cfg execs).true_failures, r.classification = "true_failure") := by
  cases hemp : execs.isEmpty with
  | true =>
    simp [analyze, hemp, List.Sorted]
  | false =>
    have hresults : ∀ r ∈ (uniqFirst (execs.map (·.test_name))).map
        (fun n => classifyTest cfg n (execs.filter (fun e => e.test_name = n))),
        r.classification = "flaky" ∨ r.classification = "true_failure" ∨
          r.classification = "stable" ∨ r.classification = "always_skipped" := by
      intro r hr
      rcases List.mem_map.mp hr with ⟨n, _, rfl⟩
      exact classifyTest_classification_mem cfg n _
    refine ⟨?_, ?_, ?_, ?_⟩
    · simp only [analyze, hemp]
      exact stableSortBy_sorted_score _
    · simp only [analyze, hemp]
      simp only [Bool.false_eq_true, if_false, length_stableSortBy]
      exact four_filter_partition _ hresults
    · intro r hr
      simp only [analyze, hemp, Bool.false_eq_true, if_false] at hr
      rw [mem_stableSortBy] at hr
      have := (List.mem_filter.mp hr).2
      simpa using this
    · intro r hr
      simp only [analyze, hemp, Bool.false_eq_true, if_false] at hr
      have := (List.mem_filter.mp hr).2
      simpa using this

/-- Sample executions for the C9 witness: two test identities, one flaky
and one always-skipped. -/
def c9ex : List TestExecution :=
  [{ test_name := "a", status := "passed", run_id := "r1" },
   { test_name := "a", status := "failed", run_id := "r2" },
   { test_name := "b", status := "skipped", run_id := "r1" }]

/-- C9 witness: the partition count identity at a concrete input. -/
theorem c9_witness :
    (analyze {} c9ex).flaky_tests.length + (analyze {} c9ex).true_failures.length
      + (analyze {} c9ex).stable_tests + (analyze {} c9ex).always_skipped
      = (analyze {} c9ex).total_tests_analyzed :=
  (c9_summary_partition_sorted {} c9ex).2.1

/-! ### Claim C5 -/

/-- C5 counterexample: on an empty execution collection `analyze` takes the
early-return path, which leaves the metadata dict at its empty default:
the returned Summary does NOT carry the execution/run/configuration
metadata block the claim promises for every Summary. -/
theorem c5_counterexample :
    (analyze {} []).total_tests_analyzed = 0 ∧ (analyze {} []).metadata = none :=
  ⟨rfl, rfl⟩

theorem uniqFirst_runs_card (execs : List TestExecution) :
    (uniqFirst ((execs.filter (fun e => e.run_id ≠ "")).map (·.run_id))).length
      = ((execs.map (·.run_id)).toFinset.erase "").card := by
  rw [← List.toFinset_card_of_nodup (uniqFirst_nodup _)]
  congr 1
  apply Finset.ext
  intro x
  simp only [List.mem_toFinset, uniqFirst_mem, List.mem_map, List.mem_filter,
    Finset.mem_erase, decide_eq_true_eq]
  constructor
  · rintro ⟨e, ⟨he, hne⟩, rfl⟩
    exact ⟨hne, e, he, rfl⟩
  · rintro ⟨hne, e, he, hm⟩
    exact ⟨e, ⟨he, hm ▸ hne⟩, hm⟩

/-- C5 (amended): for a NONEMPTY execution collection the Summary's
metadata records the raw execution count, the number of distinct non-empty
run identifiers, and the three configuration values; an empty collection
(the outcome of a fully unparseable input set) yields total_tests_analyzed
= 0 with an EMPTY metadata block — still no thrown failure. -/
theorem c5_amended_metadata (cfg : FlakyTestConfig) (execs : List TestExecution)
    (h : execs ≠ []) :
    (analyze cfg execs).metadata = some
      { total_executions := execs.length,
        unique_runs := ((execs.map (·.run_id)).toFinset.erase "").card,
        flakiness_threshold := cfg.flakiness_threshold,
        min_runs_required := cfg.min_runs_required,
        true_failure_threshold := cfg.true_failure_threshold }
    ∧ (analyze cfg []).total_tests_analyzed = 0
    ∧ (analyze cfg []).metadata = none := by
  have hemp : execs.isEmpty = false := by
    cases execs with
    | nil => exact absurd rfl h
    | cons a t => rfl
  refine ⟨?_, rfl, rfl⟩
  simp only [analyze, hemp, Bool.false_eq_true, if_false, uniqFirst_runs_card]

/-- Sample executions for the C5 witness: two raw executions, one with an
empty run identifier. -/
def c5ex : List TestExecution :=
  [{ test_name := "t5", status := "passed", run_id := "r1" },
   { test_name := "t5", status := "failed", run_id := "" }]

/-- C5 witness: the amended metadata equation at a concrete nonempty
input. -/
theorem c5_witness :
    c5ex ≠ [] ∧
    (analyze {} c5ex).metadata = some
      { total_executions := c5ex.length,
        unique_runs := ((c5ex.map (·.run_id)).toFinset.erase "").card,
        flakiness_threshold := ({} : FlakyTestConfig).flakiness_threshold,
        min_runs_required := ({} : FlakyTestConfig).min_runs_required,
        true_failure_threshold := ({} : FlakyTestConfig).true_failure_threshold } :=
  ⟨by decide, (c5_amended_metadata {} c5ex (by decide)).1⟩

/-! ### Claim C3 -/

/-- A JUnit document whose only testcase carries a present but non-numeric
time attribute. -/
def c3BadDoc : XmlElem :=
  .mk "testsuite" [] none [.mk "testcase" [("name", "t1"), ("time", "abc")] none []]

/-- C3 counterexample: a present non-numeric time attribute makes
`float(...)` raise an uncaught ValueError inside `parse_junit_xml`, so the
parse raises (`none`) instead of defaulting the duration to 0 and
returning records. -/
theorem c3_counterexample :
    parse_junit_xml (.doc c3BadDoc) "" "report" = none := by decide

/-- C3 (amended): parse failures of the caught exception types are
recovered — a malformed XML document (ET.ParseError), a JSON file whose
load raises JSONDecodeError or OSError, and an unreadable text file each
yield a warning and an empty list — and an XML testcase's duration
defaults to 0 when the time attribute is missing or empty.  But the
parsers can still raise: an unreadable XML file raises (OSError is not
caught around `ET.parse`), a JSON file with non-UTF-8 bytes raises
(UnicodeDecodeError is neither JSONDecodeError nor OSError), and a
present non-numeric time attribute raises rather than defaulting (the
counterexample). -/
theorem c3_amended_parser_recovery (rid stem : String) (tc : XmlElem)
    (ht : getAttr tc "time" = none ∨ getAttr tc "time" = some "") :
    parse_junit_xml .malformed rid stem = some []
    ∧ parse_json_results .malformed rid stem = some []
    ∧ parse_text_log .unreadable rid stem = []
    ∧ parse_junit_xml .unreadable rid stem = none
    ∧ parse_json_results .undecodable rid stem = none
    ∧ ∃ r : TestExecution, parseTestcase rid stem tc = some r ∧
        r.duration_seconds = 0 := by
  refine ⟨rfl, rfl, rfl, rfl, rfl, ?_⟩
  have hstr : strOr ((getAttr tc "time").getD "0") "0" = "0" := by
    rcases ht with h | h <;> rw [h] <;> rfl
  have hpf : pyFloat "0" = some (0 : ℚ) := by decide
  simp only [parseTestcase, hstr, hpf]
  exact ⟨_, rfl, rfl⟩

/-- A testcase with no time attribute, for the C3 witness. -/
def c3GoodTc : XmlElem := .mk "testcase" [("name", "t2")] none []

/-- C3 witness: the amended recovery facts at a concrete testcase with a
missing time attribute. -/
theorem c3_witness :
    (getAttr c3GoodTc "time" = none ∨ getAttr c3GoodTc "time" = some "")
    ∧ (parse_junit_xml .malformed "rid" "stem" = some []
      ∧ parse_json_results .malformed "rid" "stem" = some []
      ∧ parse_text_log .unreadable "rid" "stem" = []
      ∧ parse_junit_xml .unreadable "rid" "stem" = none
      ∧ parse_json_results .undecodable "rid" "stem" = none
      ∧ ∃ r : TestExecution, parseTestcase "rid" "stem" c3GoodTc = some r ∧
          r.duration_seconds = 0) :=
  ⟨by decide, c3_amended_parser_recovery "rid" "stem" c3GoodTc (by decide)⟩

/-! ### Claim C7 -/

theorem traverseOpt_mem {α β : Type} (f : α → Option β) :
    ∀ (l : List α) (out : List β), traverseOpt f l = some out →
      ∀ b ∈ out, ∃ a ∈ l, f a = some b := by
  intro l
  induction l with
  | nil =>
    intro out h b hb
    simp only [traverseOpt, Option.some.injEq] at h
    subst h
    simp at hb
  | cons a t ih =>
    intro out h b hb
    simp only [traverseOpt] at h
    cases hfa : f a with
    | none => rw [hfa] at h; cases h
    | some b0 =>
      rw [hfa] at h
      cases hrest : traverseOpt f t with
      | none => rw [hrest] at h; cases h
      | some bs =>
        rw [hrest] at h
        obtain rfl : b0 :: bs = out := Option.some.inj h
        rcases List.mem_cons.mp hb with rfl | hbs
        · exact ⟨a, List.mem_cons_self a t, hfa⟩
        · obtain ⟨a2, ha2, hfa2⟩ := ih bs hrest b hbs
          exact ⟨a2, List.mem_cons_of_mem a ha2, hfa2⟩

theorem parseTestcase_run_id (rid stem : String) (tc : XmlElem) (r : TestExecution)
    (h : parseTestcase rid stem tc = some r) : r.run_id = strOr rid stem := by
  simp only [parseTestcase] at h
  cases hpf : pyFloat (strOr ((getAttr tc "time").getD "0") "0") with
  | none => rw [hpf] at h; cases h
  | some q =>
    rw [hpf] at h
    obtain rfl := Option.some.inj h
    rfl

theorem parse_junit_xml_run_id (file : XmlFile) (rid stem : String)
    (l : List TestExecution) (h : parse_junit_xml file rid stem = some l) :
    ∀ r ∈ l, r.run_id = strOr rid stem := by
  intro r hr
  cases file with
  | unreadable => cases h
  | malformed =>
    obtain rfl : [] = l := Option.some.inj h
    simp at hr
  | doc root =>
    simp only [parse_junit_xml] at h
    cases htr : traverseOpt
        (fun suite => traverseOpt (parseTestcase rid stem)
          (childrenWithTag suite "testcase"))
        (if root.tag = "testsuite" then [root]
         else if root.tag = "testsuites" then
           root.descendants.filter (fun s => s.tag = "testsuite")
         else [root]) with
    | none => rw [htr] at h; cases h
    | some ll =>
      rw [htr] at h
      obtain rfl : ll.flatten = l := Option.some.inj h
      obtain ⟨li, hli, hrli⟩ := List.mem_flatten.mp hr
      obtain ⟨suite, _, hsuite⟩ := traverseOpt_mem _ _ _ htr li hli
      obtain ⟨tc, _, htc⟩ := traverseOpt_mem _ _ _ hsuite r hrli
      exact parseTestcase_run_id rid stem tc r htc

theorem jsonRecord_run_id (rid stem : String) (j : Json) (r : TestExecution)
    (h : jsonRecord rid stem j = some r) : r.run_id = strOr rid stem := by
  simp only [jsonRecord] at h
  cases hpf : pyFloatOfJson
      (if jsonTruthy ((objGet j "duration").getD (.num 0)) then
        (objGet j "duration").getD (.num 0) else .num 0) with
  | none => rw [hpf] at h; cases h
  | some q =>
    rw [hpf] at h
    obtain rfl := Option.some.inj h
    rfl

theorem processJsonRecords_run_id (rid stem : String) :
    ∀ (l : List Json) (out : List TestExecution),
      processJsonRecords rid stem l = some out →
      ∀ r ∈ out, r.run_id = strOr rid stem := by
  intro l
  induction l with
  | nil =>
    intro out h r hr
    obtain rfl : [] = out := Option.some.inj h
    simp at hr
  | cons j t ih =>
    intro out h r hr
    cases j with
    | obj kvs =>
      simp only [processJsonRecords] at h
      cases hjr : jsonRecord rid stem (.obj kvs) with
      | none => rw [hjr] at h; cases h
      | some ex =>
        rw [hjr] at h
        cases hrest : processJsonRecords rid stem t with
        | none => rw [hrest] at h; cases h
        | some exs =>
          rw [hrest] at h
          obtain rfl : ex :: exs = out := Option.some.inj h
          rcases List.mem_cons.mp hr with rfl | hrs
          · exact jsonRecord_run_id rid stem (.obj kvs) r hjr
          · exact ih exs hrest r hrs
    | null => exact ih out h r hr
    | bool b => exact ih out h r hr
    | num q => exact ih out h r hr
    | str s => exact ih out h r hr
    | arr a => exact ih out h r hr

theorem parse_json_results_run_id (file : JsonFile) (rid stem : String)
    (l : List TestExecution) (h : parse_json_results file rid stem = some l) :
    ∀ r ∈ l, r.run_id = strOr rid stem := by
  intro r hr
  cases file with
  | undecodable => cases h
  | malformed =>
    obtain rfl : [] = l := Option.some.inj h
    simp at hr
  | data d =>
    cases d with
    | arr records =>
      exact processJsonRecords_run_id rid stem records l h r hr
    | obj kvs =>
      simp only [parse_json_results] at h
      cases hrec : (objGet (.obj kvs) "test_results").getD
          ((objGet (.obj kvs) "tests").getD (.arr [])) with
      | arr l2 =>
        rw [hrec] at h
        exact processJsonRecords_run_id rid stem l2 l h r hr
      | null => rw [hrec] at h; obtain rfl : [] = l := Option.some.inj h; simp at hr
      | bool b => rw [hrec] at h; obtain rfl : [] = l := Option.some.inj h; simp at hr
      | num q => rw [hrec] at h; obtain rfl : [] = l := Option.some.inj h; simp at hr
      | str s => rw [hrec] at h; obtain rfl : [] = l := Option.some.inj h; simp at hr
      | obj kvs2 => rw [hrec] at h; obtain rfl : [] = l := Option.some.inj h; simp at hr
    | null => cases h
    | bool b => cases h
    | num q => cases h
    | str s => cases h

theorem parse_text_log_run_id (file : TextFile) (rid stem : String)
    (r : TestExecution) (hr : r ∈ parse_text_log file rid stem) :
    r.run_id = strOr rid stem := by
  cases file with
  | unreadable => simp [parse_text_log] at hr
  | content s =>
    simp only [parse_text_log] at hr
    obtain ⟨m, _, rfl⟩ := List.mem_map.mp hr
    rfl

theorem autoDetectAndParse_run_id (f : FileContent) (fname rid : String)
    (l : List TestExecution) (h : autoDetectAndParse f fname rid = some l) :
    ∀ r ∈ l, r.run_id = strOr rid (pathStem fname) := by
  intro r hr
  simp only [autoDetectAndParse] at h
  split_ifs at h with h1 h2
  · exact parse_junit_xml_run_id f.xml rid (pathStem fname) l h r hr
  · exact parse_json_results_run_id f.json rid (pathStem fname) l h r hr
  · obtain rfl := Option.some.inj h
    exact parse_text_log_run_id f.text rid (pathStem fname) r hr

theorem traverseOpt_zip {α β : Type} (f : α → Option β) :
    ∀ (l : List α) (out : List β), traverseOpt f l = some out →
      out.length = l.length ∧ ∀ p ∈ l.zip out, f p.1 = some p.2 := by
  intro l
  induction l with
  | nil =>
    intro out h
    obtain rfl : [] = out := Option.some.inj h
    exact ⟨rfl, by simp⟩
  | cons a t ih =>
    intro out h
    simp only [traverseOpt] at h
    cases hfa : f a with
    | none => rw [hfa] at h; cases h
    | some b0 =>
      rw [hfa] at h
      cases hrest : traverseOpt f t with
      | none => rw [hrest] at h; cases h
      | some bs =>
        rw [hrest] at h
        obtain rfl : b0 :: bs = out := Option.some.inj h
        obtain ⟨hlen, hzip⟩ := ih bs hrest
        refine ⟨by simp [hlen], ?_⟩
        intro p hp
        simp only [List.zip_cons_cons] at hp
        rcases List.mem_cons.mp hp with rfl | hps
        · exact hfa
        · exact hzip p hps

/-- C7: when the root has at least one immediate subdirectory (with the
filesystem guarantee that directory names are nonempty), each immediate
subdirectory is treated as exactly one run: the loaded records decompose
into one block per subdirectory (in sorted order), each block being
precisely the parse of THAT subdirectory's accepted files, and every
record of a block carries that same subdirectory's name as its run
identifier, regardless of the file names inside; and a missing root
yields an empty record list without raising. -/
theorem c7_directory_loader (subdirs : List SubDir) (files : List DirFile)
    (recs : List TestExecution) (hne : subdirs ≠ [])
    (hnames : ∀ sd ∈ subdirs, sd.name ≠ "")
    (hload : load_results_from_directory (.dir subdirs files) = some recs) :
    (∃ perRun : List (List TestExecution),
      recs = perRun.flatten
      ∧ perRun.length = (stableSortBy (fun a b => nameLe a.name b.name) subdirs).length
      ∧ ∀ p ∈ (stableSortBy (fun a b => nameLe a.name b.name) subdirs).zip perRun,
          ((traverseOpt (fun f => autoDetectAndParse f.content f.name p.1.name)
            ((stableSortBy (fun a b => nameLe a.name b.name) p.1.files).filter
              (fun f => goodExt f.name))).map List.flatten = some p.2
          ∧ ∀ r ∈ p.2, r.run_id = p.1.name))
    ∧ load_results_from_directory .missing = some [] := by
  refine ⟨?_, rfl⟩
  have hemp : subdirs.isEmpty = false := by
    cases subdirs with
    | nil => exact absurd rfl hne
    | cons a t => rfl
  simp only [load_results_from_directory, hemp, Bool.false_eq_true, if_false] at hload
  cases htr : traverseOpt
      (fun sd => (traverseOpt (fun f => autoDetectAndParse f.content f.name sd.name)
        ((stableSortBy (fun a b => nameLe a.name b.name) sd.files).filter
          (fun f => goodExt f.name))).map List.flatten)
      (stableSortBy (fun a b => nameLe a.name b.name) subdirs) with
  | none => rw [htr] at hload; cases hload
  | some ll =>
    rw [htr] at hload
    obtain rfl : ll.flatten = recs := Option.some.inj hload
    obtain ⟨hlen, hzip⟩ := traverseOpt_zip _ _ _ htr
    refine ⟨ll, rfl, hlen, ?_⟩
    intro p hp
    obtain ⟨sd, blk⟩ := p
    have hF := hzip (sd, blk) hp
    have hsd2 : sd ∈ subdirs :=
      (mem_stableSortBy _ sd subdirs).mp (List.of_mem_zip hp).1
    refine ⟨hF, ?_⟩
    intro r hr
    cases hinner : traverseOpt (fun f => autoDetectAndParse f.content f.name sd.name)
        ((stableSortBy (fun a b => nameLe a.name b.name) sd.files).filter
          (fun f => goodExt f.name)) with
    | none => rw [hinner] at hF; cases hF
    | some ll2 =>
      rw [hinner] at hF
      have h22 : ll2.flatten = blk := Option.some.inj hF
      rw [← h22] at hr
      obtain ⟨l2, hl2, hrl2⟩ := List.mem_flatten.mp hr
      obtain ⟨f, _, hf⟩ := traverseOpt_mem _ _ _ hinner l2 hl2
      have hrun := autoDetectAndParse_run_id f.content f.name sd.name l2 hf r hrl2
      rw [hrun, strOr, if_neg (hnames sd hsd2)]

/-- Concrete directory for the C7 witness: two run subdirectories, each
with one text log whose file name suggests a different run identifier. -/
def c7fcA : FileContent := { text := .content "PASS t_alpha" }

def c7fcB : FileContent := { text := .content "FAIL t_beta" }

def c7dirA : SubDir := { name := "run_a", files := [{ name := "res.log", content := c7fcA }] }

def c7dirB : SubDir := { name := "run_b", files := [{ name := "res.log", content := c7fcB }] }

/-- The records the loader emits for the C7 witness directory. -/
def c7recs : List TestExecution :=
  [{ test_name := "t_alpha", status := "passed", run_id := "run_a" },
   { test_name := "t_beta", status := "failed", run_id := "run_b" }]

/-- C7 witness: the loader facts at a concrete two-run directory. -/
theorem c7_witness :
    load_results_from_directory (.dir [c7dirA, c7dirB] []) = some c7recs
    ∧ ((∃ perRun : List (List TestExecution),
        c7recs = perRun.flatten
        ∧ perRun.length =
            (stableSortBy (fun a b => nameLe a.name b.name) [c7dirA, c7dirB]).length
        ∧ ∀ p ∈ (stableSortBy (fun a b => nameLe a.name b.name)
              [c7dirA, c7dirB]).zip perRun,
            ((traverseOpt (fun f => autoDetectAndParse f.content f.name p.1.name)
              ((stableSortBy (fun a b => nameLe a.name b.name) p.1.files).filter
                (fun f => goodExt f.name))).map List.flatten = some p.2
            ∧ ∀ r ∈ p.2, r.run_id = p.1.name))
      ∧ load_results_from_directory .missing = some []) :=
  ⟨by decide,
   c7_directory_loader [c7dirA, c7dirB] [] c7recs (List.cons_ne_nil _ _) (by decide)
     (by decide)⟩

/-! ### Claim C8 -/

/-- C8 counterexample: the single line "COMPASS test_a" contains no
whitespace-delimited STATUS token (its tokens are "COMPASS" and "test_a"),
yet the parser emits a record, because `_TEXT_RESULT_RE` is not anchored
to token boundaries and matches the "PASS" inside "COMPASS".  This
refutes the claim that a record is emitted exactly for lines containing a
whole-token STATUS. -/
theorem c8_counterexample :
    parse_text_log (.content "COMPASS test_a") "" "build" =
      [{ test_name := "test_a", status := "passed", run_id := "build" }] := by decide

theorem stripCaseless_spec :
    ∀ (p l rest : List Char), stripCaseless p l = some rest →
      (l.take p.length).map Char.toLower = p := by
  intro p
  induction p with
  | nil => intro l rest h; simp
  | cons pc ps ih =>
    intro l rest h
    cases l with
    | nil => cases h
    | cons c cs =>
      simp only [stripCaseless] at h
      split_ifs at h with hc
      simpa [hc] using ih cs rest h

theorem tryCand_spec (cand : List Char) (l : List Char) (st nm : String)
    (rest : List Char) (h : tryCand cand l = some (st, nm, rest)) :
    pyLower st = String.mk cand
    ∧ nm.toList ≠ [] ∧ ∀ c ∈ nm.toList, isPySpace c = false := by
  cases hsc : stripCaseless cand l with
  | none => simp [tryCand, hsc] at h
  | some rest0 =>
    simp only [tryCand, hsc] at h
    split_ifs at h with hws hnm
    simp only [Option.some.injEq, Prod.mk.injEq] at h
    obtain ⟨h1, h2, h3⟩ := h
    subst h1
    subst h2
    refine ⟨?_, ?_, ?_⟩
    · show String.mk ((l.take cand.length).map Char.toLower) = String.mk cand
      rw [stripCaseless_spec cand l rest0 hsc]
    · simpa using hnm
    · intro c hc
      have := List.mem_takeWhile_imp hc
      simpa using this

theorem tryAlternatives_spec :
    ∀ (cands : List (List Char)) (l : List Char) (st nm : String) (rest : List Char),
      tryAlternatives cands l = some (st, nm, rest) →
      ∃ cand ∈ cands, tryCand cand l = some (st, nm, rest) := by
  intro cands
  induction cands with
  | nil => intro l st nm rest h; cases h
  | cons cand cs ih =>
    intro l st nm rest h
    simp only [tryAlternatives] at h
    cases htc : tryCand cand l with
    | some r =>
      rw [htc] at h
      obtain rfl := Option.some.inj h
      exact ⟨cand, List.mem_cons_self cand cs, htc⟩
    | none =>
      rw [htc] at h
      obtain ⟨c2, hc2, h2⟩ := ih l st nm rest h
      exact ⟨c2, List.mem_cons_of_mem cand hc2, h2⟩

theorem scanAux_pairs :
    ∀ (n : Nat) (l : List Char) (p : String × String), p ∈ scanAux n l →
      ∃ l2 rest, tryMatch l2 = some (p.1, p.2, rest) := by
  intro n
  induction n with
  | zero => intro l p hp; simp [scanAux] at hp
  | succ n ih =>
    intro l p hp
    cases l with
    | nil => simp [scanAux] at hp
    | cons c cs =>
      simp only [scanAux] at hp
      cases htm : tryMatch (c :: cs) with
      | some r =>
        obtain ⟨st, nm, rest2⟩ := r
        rw [htm] at hp
        rcases List.mem_cons.mp hp with rfl | hrec
        · exact ⟨c :: cs, rest2, htm⟩
        · exact ih rest2 p hrec
      | none =>
        rw [htm] at hp
        exact ih cs p hp

/-- C8 (amended): the free-text parser emits one record per regex match
scanned over the whole file, where the STATUS alternative may begin
anywhere — including inside a longer word — and the whitespace between
STATUS and NAME may span a line break (so status and name need not lie on
one line, nor must STATUS be a whole token; see the counterexample).
Every emitted record carries one of the four canonical statuses, a
nonempty whitespace-free name, the supplied (or stem-derived) run
identifier, and no duration, message, or timestamp. -/
theorem c8_amended_text_scan (content rid stem : String) :
    ∀ r ∈ parse_text_log (.content content) rid stem,
      (r.status = "passed" ∨ r.status = "failed" ∨ r.status = "error" ∨
        r.status = "skipped")
      ∧ r.test_name ≠ ""
      ∧ (∀ c ∈ r.test_name.toList, isPySpace c = false)
      ∧ r.duration_seconds = 0 ∧ r.error_message = "" ∧ r.timestamp = ""
      ∧ r.run_id = strOr rid stem := by
  intro r hr
  simp only [parse_text_log, scanText] at hr
  obtain ⟨m, hm, rfl⟩ := List.mem_map.mp hr
  obtain ⟨l2, rest, htm⟩ := scanAux_pairs _ _ m hm
  obtain ⟨cand, hcand, htc⟩ := tryAlternatives_spec statusCandidates l2 m.1 m.2 rest htm
  obtain ⟨hlow, hnm, hns⟩ := tryCand_spec cand l2 m.1 m.2 rest htc
  refine ⟨?_, ?_, fun c hc => hns c hc, rfl, rfl, rfl, rfl⟩
  · show normalizeStatus (pyLower m.1) = "passed" ∨
      normalizeStatus (pyLower m.1) = "failed" ∨
      normalizeStatus (pyLower m.1) = "error" ∨
      normalizeStatus (pyLower m.1) = "skipped"
    rw [hlow]
    simp only [statusCandidates, List.mem_cons, List.not_mem_nil, or_false] at hcand
    rcases hcand with rfl | rfl | rfl | rfl | rfl | rfl | rfl <;> decide
  · show m.2 ≠ ""
    intro hcontra
    rw [hcontra] at hnm
    exact hnm rfl

/-- The record the C8 witness checks. -/
def c8rec : TestExecution := { test_name := "alpha", status := "passed", run_id := "r9" }

/-- C8 witness: the amended per-record facts at a concrete matched line. -/
theorem c8_witness :
    c8rec ∈ parse_text_log (.content "PASS alpha") "r9" "x"
    ∧ ((c8rec.status = "passed" ∨ c8rec.status = "failed" ∨ c8rec.status = "error" ∨
        c8rec.status = "skipped")
      ∧ c8rec.test_name ≠ ""
      ∧ (∀ c ∈ c8rec.test_name.toList, isPySpace c = false)
      ∧ c8rec.duration_seconds = 0 ∧ c8rec.error_message = "" ∧ c8rec.timestamp = ""
      ∧ c8rec.run_id = strOr "r9" "x") :=
  ⟨by decide, c8_amended_text_scan "PASS alpha" "r9" "x" c8rec (by decide)⟩

end LogMinerQA
